import Mathlib

/-!
Verification of the postman-collection-sync tool (`sync.js`).

The development shallowly embeds the JavaScript source: pure string
helpers become Lean functions on `String`/`List Char`, the filesystem
side effects of the tree traversals become explicit lists of `FsOp`
events, and the three HTTP calls of the run become lookups in an
environment record together with a trace of `HttpReq` events.
JavaScript truthiness on optional configuration strings (where the
empty string behaves like an absent value) is modelled by `jsPresent`.
-/

namespace PostmanSync

/-- JavaScript truthiness of an optional string: `undefined`, `null`
and `""` are falsy, every other string is truthy. -/
def jsPresent (o : Option String) : Bool :=
  match o with
  | none => false
  | some s => s ≠ ""

/-- JavaScript `a || b` for an optional string `a` (with `""` falsy),
as used for defaulted fields such as `p.value || ""`. -/
def jsOr (o : Option String) (dflt : String) : String :=
  match o with
  | none => dflt
  | some s => if s = "" then dflt else s

/-- ASCII alphanumeric test, the character class `[a-zA-Z0-9]` with the
`i` flag collapsed in. -/
def jsAlnum (c : Char) : Bool := c.isAlpha || c.isDigit

/-- `name.replace(/[^a-z0-9]/gi, "_")` — the file-safe transformation
used for directory names and (before lower-casing) Markdown file
names. -/
def fileSafe (name : String) : String :=
  String.mk (name.data.map (fun c => if jsAlnum c then c else '_'))

/-- `str.toLowerCase()` on the ASCII strings this tool produces. -/
def jsToLower (s : String) : String :=
  String.mk (s.data.map Char.toLower)

/-- Markdown file name of a request:
`item.name.replace(/[^a-z0-9]/gi, "_").toLowerCase() + ".md"` (sync.js
line 165). -/
def mdFileName (name : String) : String :=
  jsToLower (fileSafe name) ++ ".md"

/-! ## URL representations and `extractEndpoint` (sync.js 188-216) -/

/-- A query entry of a structured Postman URL: `{key, value, description}`
with the latter two possibly absent. -/
structure QueryParam where
  key : String
  value : Option String
  description : Option String
deriving DecidableEq

/-- The JavaScript value stored in `request.url`: absent (`undefined` /
`null`), a plain string, or an object carrying optional `path` segments,
an optional `raw` string and a `query` array. -/
inductive UrlRep where
  | undef
  | str (s : String)
  | obj (path : Option (List String)) (raw : Option String) (query : List QueryParam)
deriving DecidableEq

/-- `pathStr.split("?")[0]`: everything from the first `?` onward is
dropped. -/
def stripQuery (s : String) : String :=
  String.mk (s.data.takeWhile (fun c => c ≠ '?'))

/-- The final step of `extractEndpoint`: prepend `/` when the string
does not already start with one (`pathStr.startsWith("/")` is exactly
"first character is `'/'`"). -/
def ensureSlash (s : String) : String :=
  match s.data with
  | '/' :: _ => s
  | _ => "/" ++ s

/-- Scheme validity for the WHATWG `URL` constructor: a letter followed
by letters, digits, `+`, `-` or `.`. -/
def validScheme (cs : List Char) : Bool :=
  match cs with
  | [] => false
  | c :: rest => c.isAlpha && rest.all (fun d => d.isAlpha || d.isDigit || d = '+' || d = '-' || d = '.')

/-- Model of `new URL(raw).pathname` for the hierarchical URLs this tool
meets: parsing succeeds exactly when the string has the shape
`scheme://authority...`, and the pathname is the part from the first
`/` after the authority up to the first `?` or `#` (or `/` when the
authority is not followed by a path).  Strings without a valid
`scheme://` prefix — relative paths such as `users` or `/api/users` —
make the constructor throw, modelled by `none`. -/
def parseURL (s : String) : Option String :=
  let cs := s.data
  let scheme := cs.takeWhile (fun c => c ≠ ':')
  let rest := cs.drop scheme.length
  if validScheme scheme then
    match rest with
    | ':' :: '/' :: '/' :: after =>
      let tail := (after.dropWhile (fun c => c ≠ '/' && c ≠ '?' && c ≠ '#'))
      let pathname := tail.takeWhile (fun c => c ≠ '?' && c ≠ '#')
      some (if pathname = [] then "/" else String.mk pathname)
    | _ => none
  else none

/-- `extractEndpoint` (sync.js 188-216).  `!url` is truthy for the
absent value and for the empty string; an object is always truthy.
`url.path` and `url.raw` are probed in that order, with `some ""` for
`raw` behaving like an absent field only through the later processing
(the code guards `url.raw` by truthiness, and an empty raw string leads
to the same `"/"` result either way, see `extractEndpoint_str_empty`). -/
def extractEndpoint (url : UrlRep) : String :=
  match url with
  | .undef => "/"
  | .str s => if s = "" then "/" else ensureSlash (stripQuery s)
  | .obj p r _ =>
    let pathStr :=
      match p with
      | some segs => String.intercalate "/" segs
      | none =>
        match r with
        | some raw =>
          (match parseURL raw with
           | some pn => pn
           | none => raw)
        | none => ""
    ensureSlash (stripQuery pathStr)

/-! ## Name conversions (sync.js 169-185) -/

/-- JavaScript `\w`: ASCII letters, digits and the underscore. -/
def jsWordChar (c : Char) : Bool := jsAlnum c || c = '_'

/-- JavaScript `\s` on the ASCII range. -/
def jsSpace (c : Char) : Bool :=
  c = ' ' || c = '\t' || c = '\n' || c = '\r' || c = '\x0b' || c = '\x0c'

/-- `$1_$2` insertion for `/([a-z])([A-Z])/g`: an underscore between
every lowercase-then-uppercase pair.  Because each regex match consumes
two characters and the next match again needs a lowercase first
character, scanning every adjacent pair gives the same result as the
global regex. -/
def insertCamelBreaks : List Char → List Char
  | [] => []
  | [c] => [c]
  | a :: b :: rest =>
    if a.isLower && b.isUpper then a :: '_' :: insertCamelBreaks (b :: rest)
    else a :: insertCamelBreaks (b :: rest)

/-- `toConstantName` (sync.js 170-175): special characters to `_`,
underscore at camelCase boundaries, then uppercase. -/
def toConstantName (name : String) : String :=
  String.mk ((insertCamelBreaks (name.data.map (fun c => if jsAlnum c then c else '_'))).map Char.toUpper)

/-- The second `replace` of `toCamelCase` past the first character.
The regex `/(?:^\w|[A-Z]|\b\w)/g` matches single characters: a word
character at offset 0, any uppercase letter, or a word character at a
word boundary.  The callback receives the match offset and returns the
lower-cased character at offset 0 and the upper-cased character
elsewhere.  `camelGo prev cs` scans `cs` when the previous character is
`prev` (so the offset is positive and every match is upper-cased). -/
def camelGo : Char → List Char → List Char
  | _, [] => []
  | prev, c :: rest =>
    (if (jsWordChar c && !jsWordChar prev) || c.isUpper then c.toUpper else c) :: camelGo c rest

/-- The same scan at offset 0: the first character matches exactly when
it is a word character (the `[A-Z]` and `\b\w` alternatives are
subsumed), and a match at offset 0 is lower-cased. -/
def camelAll : List Char → List Char
  | [] => []
  | c :: rest => (if jsWordChar c then c.toLower else c) :: camelGo c rest

/-- `toCamelCase` (sync.js 178-185): non-alphanumerics to spaces, the
offset-sensitive case pass, then all whitespace removed. -/
def toCamelCase (str : String) : String :=
  String.mk ((camelAll (str.data.map (fun c => if jsAlnum c then c else ' '))).filter (fun c => !jsSpace c))

/-- Maximal whitespace-free words of a character list. -/
def splitWs : List Char → List (List Char)
  | [] => []
  | c :: rest =>
    if jsSpace c then splitWs rest
    else (c :: rest.takeWhile (fun d => !jsSpace d)) :: splitWs (rest.dropWhile (fun d => !jsSpace d))
  termination_by l => l.length
  decreasing_by
  · simp only [List.length_cons]
    exact Nat.lt_succ_of_le (Nat.le_refl _)
  · simp only [List.length_cons]
    exact Nat.lt_succ_of_le (List.dropWhile_sublist _).length_le

/-- Capitalization of a word's first character. -/
def capFirst : List Char → List Char
  | [] => []
  | c :: rest => c.toUpper :: rest

/-- The spec's reference definition of `toCamelIdentifier`, from its
words: strip non-alphanumeric characters to spaces, split into
whitespace-delimited words, lower-case the first word, capitalize each
subsequent word's first letter, and concatenate.  Written from the
specification for comparison with the source's `toCamelCase`. -/
def toCamelCaseSpec (str : String) : String :=
  match splitWs (str.data.map (fun c => if jsAlnum c then c else ' ')) with
  | [] => ""
  | w :: ws => String.mk (w.map Char.toLower ++ (ws.map capFirst).flatten)

/-- Inputs on which the implementation agrees with the reference
definition: after the non-alphanumeric-to-space pass the text is
empty, all spaces, or starts with a word character whose first word
carries no uppercase letter beyond position 0.  Outside this class the
offset-based regex of the source diverges from the word-based
reference (see the counterexample for the camel-case claim). -/
def camelTame (str : String) : Bool :=
  match str.data.map (fun c => if jsAlnum c then c else ' ') with
  | [] => true
  | c :: rest =>
    if c = ' ' then (c :: rest).all (fun d => d = ' ')
    else (rest.takeWhile (fun d => !jsSpace d)).all (fun d => !d.isUpper)

/-! ## Markdown rendering (sync.js 107-167) -/

/-- A header row: `{key, value, description}` with the description
possibly absent. -/
structure Header where
  key : String
  value : String
  description : Option String
deriving DecidableEq

/-- A formdata field: `{key, value, type, description}`. -/
structure FormParam where
  key : String
  value : Option String
  type : String
  description : Option String
deriving DecidableEq

/-- `request.body`: a mode tag plus the `raw` text and the `formdata`
fields (whichever the mode uses). -/
structure BodyDesc where
  mode : String
  raw : String
  formdata : List FormParam
deriving DecidableEq

/-- A recorded sample response. -/
structure RespItem where
  name : String
  code : Nat
  status : String
  body : String
deriving DecidableEq

/-- The `request` payload of a request item. -/
structure Request where
  method : String
  url : UrlRep
  description : Option String
  header : List Header
  body : Option BodyDesc
deriving DecidableEq

/-- `request.url?.raw || request.url` interpolated into a template
string: the absent value prints as `undefined`, an object without a
truthy `raw` prints as `[object Object]`. -/
def urlDisplay : UrlRep → String
  | .undef => "undefined"
  | .str s => s
  | .obj _ r _ =>
    match r with
    | some raw => if raw = "" then "[object Object]" else raw
    | none => "[object Object]"

/-- `request.url?.query`: only the structured form carries a query
list. -/
def urlQuery : UrlRep → List QueryParam
  | .obj _ _ q => q
  | _ => []

/-- The "Headers" block (sync.js 120-128), emitted only when at least
one header exists. -/
def headersSection (hs : List Header) : String :=
  if hs = [] then ""
  else
    "## Headers\n\n| Key | Value | Description |\n| --- | --- | --- |\n" ++
      String.join (hs.map (fun h =>
        "| " ++ h.key ++ " | " ++ h.value ++ " | " ++ jsOr h.description "" ++ " |\n")) ++ "\n"

/-- The "Query Parameters" block (sync.js 131-139). -/
def querySection (qs : List QueryParam) : String :=
  if qs = [] then ""
  else
    "## Query Parameters\n\n| Key | Value | Description |\n| --- | --- | --- |\n" ++
      String.join (qs.map (fun p =>
        "| " ++ p.key ++ " | " ++ jsOr p.value "" ++ " | " ++ jsOr p.description "" ++ " |\n")) ++ "\n"

/-- The "Body" block (sync.js 142-154).  The heading is emitted for any
truthy `mode`; the mode-specific content only for `raw` and
`formdata`. -/
def bodySection (b : Option BodyDesc) : String :=
  match b with
  | none => ""
  | some bd =>
    if bd.mode = "" then ""
    else
      "## Body (" ++ bd.mode ++ ")\n\n" ++
        (if bd.mode = "raw" then "```json\n" ++ bd.raw ++ "\n```\n\n"
         else if bd.mode = "formdata" then
           "| Key | Value | Type | Description |\n| --- | --- | --- | --- |\n" ++
             String.join (bd.formdata.map (fun p =>
               "| " ++ p.key ++ " | " ++ jsOr p.value "" ++ " | " ++ p.type ++ " | " ++
                 jsOr p.description "" ++ " |\n")) ++ "\n"
         else "")

/-- The "Responses" block (sync.js 157-163). -/
def responsesSection (rs : List RespItem) : String :=
  if rs = [] then ""
  else
    "## Responses\n\n" ++
      String.join (rs.map (fun r =>
        "### " ++ r.name ++ " (" ++ toString r.code ++ " " ++ r.status ++ ")\n\n```json\n" ++
          r.body ++ "\n```\n\n"))

/-- The Markdown document assembled by `generateMarkdown` for a request
item with the given name, request payload and responses. -/
def mdContent (name : String) (rq : Request) (rs : List RespItem) : String :=
  "# " ++ name ++ "\n\n" ++
    "> " ++ jsOr rq.description "No description provided." ++ "\n\n" ++
    "`" ++ rq.method ++ "` **" ++ urlDisplay rq.url ++ "**\n\n" ++
    headersSection rq.header ++
    querySection (urlQuery rq.url) ++
    bodySection rq.body ++
    responsesSection rs

/-! ## The collection tree and its traversals (sync.js 249-307) -/

/-- A node of the collection tree.  JavaScript distinguishes the cases
by probing `item.item` and then `item.request`; a node with neither is
`other` and is silently skipped by every traversal. -/
inductive Item where
  | folder (name : String) (children : List Item)
  | req (name : String) (request : Request) (response : List RespItem)
  | other (name : String)

/-- A filesystem effect: directory creation (`ensureDir`) or a file
write (`fs.writeFileSync`).  Paths are segment lists; every generated
segment is separator-free, so `path.join` on them is injective. -/
inductive FsOp where
  | mkdir (path : List String)
  | write (path : List String) (content : String)
deriving DecidableEq

/-- `generateMarkdown(item, savedPath)` as the list of writes it
performs: one write for a request item, none when the `request`
payload is missing (sync.js 108-109). -/
def generateMarkdown (it : Item) (savedPath : List String) : List FsOp :=
  match it with
  | .req n rq rs => [.write (savedPath ++ [mdFileName n]) (mdContent n rq rs)]
  | _ => []

/-- `processItems` (sync.js 294-307): plain depth-first traversal.
A folder gets a file-safe, case-preserving directory and is recursed
into; any other item is handed to `generateMarkdown`. -/
def processItems : List Item → List String → List FsOp
  | [], _ => []
  | .folder n cs :: rest, base =>
    (FsOp.mkdir (base ++ [fileSafe n]) :: processItems cs (base ++ [fileSafe n])) ++
      processItems rest base
  | it :: rest, base => generateMarkdown it base ++ processItems rest base

/-- The `requests` array accumulated by the inner `collectRequests`
closure (sync.js 259-270): depth-first flattening of every request
item below the given items. -/
def flattenReqs : List Item → List Item
  | [] => []
  | .folder _ cs :: rest => flattenReqs cs ++ flattenReqs rest
  | .req n rq rs :: rest => Item.req n rq rs :: flattenReqs rest
  | .other _ :: rest => flattenReqs rest

/-- The Markdown writes performed by the same closure: every flattened
request is rendered directly into the top-level folder's directory. -/
def flattenOps : List Item → List String → List FsOp
  | [], _ => []
  | .folder _ cs :: rest, dir => flattenOps cs dir ++ flattenOps rest dir
  | .req n rq rs :: rest, dir =>
    FsOp.write (dir ++ [mdFileName n]) (mdContent n rq rs) :: flattenOps rest dir
  | .other _ :: rest, dir => flattenOps rest dir

/-- The `folderMap` object: normalized folder name to collected request
items, in key-insertion order. -/
abbrev FolderMap := List (String × List Item)

/-- `if (!folderMap[k]) folderMap[k] = []; folderMap[k].push(...vs)`:
append to an existing key in place, otherwise insert the key at the
end (sync.js 274-277).  The key is created even when `vs` is empty. -/
def mapPush : FolderMap → String → List Item → FolderMap
  | [], k, vs => [(k, vs)]
  | (k0, v0) :: rest, k, vs =>
    if k0 = k then (k0, v0 ++ vs) :: rest else (k0, v0) :: mapPush rest k vs

/-- `collectFolderRequests` (sync.js 249-291), the grouping-mode
traversal: each top-level folder gets a lower-cased file-safe
directory, all requests below it are flattened into that directory and
recorded in the folder map, and the plain traversal then re-walks its
children; root-level requests are written in place and grouped under
`general`. -/
def collectFolderRequests : List Item → List String → FolderMap → List FsOp × FolderMap
  | [], _, fm => ([], fm)
  | .folder n cs :: rest, base, fm =>
    let folderName := jsToLower (fileSafe n)
    let folderPath := base ++ [folderName]
    let fm1 := mapPush fm folderName (flattenReqs cs)
    let (tailOps, fm2) := collectFolderRequests rest base fm1
    (FsOp.mkdir folderPath ::
        (flattenOps cs folderPath ++ processItems cs folderPath ++ tailOps), fm2)
  | .req n rq rs :: rest, base, fm =>
    let fm1 := mapPush fm "general" [Item.req n rq rs]
    let (tailOps, fm2) := collectFolderRequests rest base fm1
    (FsOp.write (base ++ [mdFileName n]) (mdContent n rq rs) :: tailOps, fm2)
  | .other _ :: rest, base, fm => collectFolderRequests rest base fm

/-! ## Endpoint-module rendering (sync.js 219-246) -/

/-- One value of the generated endpoints object: `{type, endpoint}`. -/
structure EndpointEntry where
  type : String
  endpoint : String
deriving DecidableEq

/-- `endpoints[key] = {...}` on a JavaScript object: an existing key is
updated in place (keeping its insertion position), a new key is
appended. -/
def upsert : List (String × EndpointEntry) → String → EndpointEntry → List (String × EndpointEntry)
  | [], k, v => [(k, v)]
  | (k0, v0) :: rest, k, v =>
    if k0 = k then (k0, v) :: rest else (k0, v0) :: upsert rest k v

/-- The `endpoints` object built by `generateApiEndpointFile`
(sync.js 223-232): key from `toCamelCase(req.name)`, method defaulting
to `GET` when falsy or missing, endpoint from `extractEndpoint`.
Items without a `request` payload contribute the defaults. -/
def buildEndpoints (reqs : List Item) : List (String × EndpointEntry) :=
  reqs.foldl
    (fun acc it =>
      match it with
      | .req n rq _ =>
        upsert acc (toCamelCase n)
          ⟨if rq.method = "" then "GET" else rq.method, extractEndpoint rq.url⟩
      | .folder n _ => upsert acc (toCamelCase n) ⟨"GET", "/"⟩
      | .other n => upsert acc (toCamelCase n) ⟨"GET", "/"⟩)
    []

/-- Minimal JSON string escaping, as `JSON.stringify` applies to the
method and endpoint values. -/
def jsonEscapeChar (c : Char) : String :=
  if c = '"' then "\\\"" else if c = '\\' then "\\\\" else if c = '\n' then "\\n" else String.mk [c]

/-- A JSON string literal. -/
def jsonStr (s : String) : String :=
  "\"" ++ String.join (s.data.map jsonEscapeChar) ++ "\""

/-- `JSON.stringify(endpoints, null, 2).replace(/"([^"]+)":/g, "$1:")`:
the two-space-indented object rendering with the quotes stripped from
every key (the regex also unquotes the inner `type`/`endpoint` keys). -/
def endpointsJson (l : List (String × EndpointEntry)) : String :=
  match l with
  | [] => "\x7b\x7d"
  | _ =>
    "\x7b\n" ++
      String.intercalate ",\n"
        (l.map (fun e =>
          "  " ++ e.1 ++ ": \x7b\n    type: " ++ jsonStr e.2.type ++ ",\n    endpoint: " ++
            jsonStr e.2.endpoint ++ "\n  \x7d")) ++
      "\n\x7d"

/-- `folderName.toLowerCase().replace(/[^a-z0-9]/g, "-") + ".js"`. -/
def epFileName (folderName : String) : String :=
  String.mk ((jsToLower folderName).data.map (fun c => if c.isLower || c.isDigit then c else '-')) ++
    ".js"

/-- The file content assembled by `generateApiEndpointFile`
(sync.js 235-241); the corresponding write is emitted by
`endpointFileOps`. -/
def generateApiEndpointFile (folderName : String) (reqs : List Item) : String :=
  "/**\n * " ++ folderName ++ " API Endpoints\n */\nexport const " ++ toConstantName folderName ++
    " = " ++ endpointsJson (buildEndpoints reqs) ++ ";\n\nexport default " ++
    toConstantName folderName ++ ";\n"

/-- The endpoint-file writes of `main`'s grouping branch
(sync.js 338-342): one file per folder-map entry with at least one
request, in map order. -/
def endpointFileOps : FolderMap → String → List FsOp
  | [], _ => []
  | (k, reqs) :: rest, d =>
    (if reqs.isEmpty then []
     else [FsOp.write [d, epFileName k] (generateApiEndpointFile k reqs)]) ++
      endpointFileOps rest d

/-! ## Serialization of the fetched collection (sync.js 318-321) -/

/-- JSON rendering of a URL representation. -/
def urlJson : UrlRep → String
  | .undef => "null"
  | .str s => jsonStr s
  | .obj p r q =>
    "\x7b\"path\":" ++
      (match p with
       | some segs => "[" ++ String.intercalate "," (segs.map jsonStr) ++ "]"
       | none => "null") ++
      ",\"raw\":" ++ (match r with | some raw => jsonStr raw | none => "null") ++
      ",\"query\":[" ++
      String.intercalate ","
        (q.map (fun p0 =>
          "\x7b\"key\":" ++ jsonStr p0.key ++ ",\"value\":" ++
            (match p0.value with | some v => jsonStr v | none => "null") ++ "\x7d")) ++
      "]\x7d"

/-- JSON rendering of a request payload. -/
def requestJson (rq : Request) : String :=
  "\x7b\"method\":" ++ jsonStr rq.method ++ ",\"url\":" ++ urlJson rq.url ++
    ",\"description\":" ++
    (match rq.description with | some d => jsonStr d | none => "null") ++ "\x7d"

/-- JSON rendering of a sample response. -/
def respJson (r : RespItem) : String :=
  "\x7b\"name\":" ++ jsonStr r.name ++ ",\"code\":" ++ toString r.code ++ ",\"status\":" ++
    jsonStr r.status ++ ",\"body\":" ++ jsonStr r.body ++ "\x7d"

mutual
/-- Model of `JSON.stringify(collection, null, 2)` on one tree node.
Only determinism of the serialization is used by the claims; the
rendering is a compact JSON image of the node. -/
def itemJson : Item → String
  | .folder n cs => "\x7b\"name\":" ++ jsonStr n ++ ",\"item\":[" ++ itemsJson cs ++ "]\x7d"
  | .req n rq rs =>
    "\x7b\"name\":" ++ jsonStr n ++ ",\"request\":" ++ requestJson rq ++ ",\"response\":[" ++
      String.intercalate "," (rs.map respJson) ++ "]\x7d"
  | .other n => "\x7b\"name\":" ++ jsonStr n ++ "\x7d"

/-- Comma-separated serialization of a node list. -/
def itemsJson : List Item → String
  | [] => ""
  | [it] => itemJson it
  | it :: rest => itemJson it ++ "," ++ itemsJson rest
end

/-- The fetched collection document: `response.data.collection`, of
which the code reads the `item` array. -/
structure Collection where
  item : List Item

/-- `JSON.stringify(collection, null, 2)` for the saved
`collection.json`. -/
def collectionJson (c : Collection) : String :=
  "\x7b\"item\":[" ++ itemsJson c.item ++ "]\x7d"

/-! ## Configuration, the remote API, and `main` (sync.js 7-356) -/

/-- The `CONFIG` object.  Optional environment variables are `Option`s;
JavaScript falsiness (an empty string behaving like absence) is applied
through `jsPresent` at each use site.  The API-key guard runs at module
load, before `main`; `outputDir` always resolves to a path and
`apiEndpointsDir` is `none` exactly when endpoint generation is
disabled. -/
structure Config where
  apiKey : String
  workspaceName : Option String
  collectionName : Option String
  collectionId : Option String
  outputDir : String
  apiEndpointsDir : Option String

/-- A workspace as returned by `GET /workspaces`. -/
structure Workspace where
  id : String
  name : String

/-- A collection reference as returned by `GET /collections`. -/
structure CollectionRef where
  uid : String
  name : String

/-- One HTTP request issued by the tool. -/
inductive HttpReq where
  | getWorkspaces
  | getCollections (workspace : Option String)
  | getCollectionDetails (uid : String)
deriving DecidableEq

/-- The remote service: what each GET would return (or the error it
would raise) during this run. -/
structure Env where
  workspaces : Except String (List Workspace)
  collections : Option String → Except String (List CollectionRef)
  details : String → Except String Collection

/-- `getWorkspaceId` (sync.js 43-63): nothing happens without a
configured workspace name; otherwise the workspace listing is fetched
and searched for an exact name match, a missing match degrades to
`none` with a warning, and an HTTP error is logged and swallowed —
`null` is returned, not a re-thrown error.  The first component is the
HTTP trace, the second the `console.error` log. -/
def getWorkspaceId (cfg : Config) (env : Env) : List HttpReq × List String × Option String :=
  if jsPresent cfg.workspaceName then
    match env.workspaces with
    | .ok ws =>
      match ws.find? (fun w => w.name == cfg.workspaceName.getD "") with
      | some w => ([.getWorkspaces], [], some w.id)
      | none => ([.getWorkspaces], [], none)
    | .error m => ([.getWorkspaces], ["Failed to fetch workspaces: " ++ m], none)
  else ([], [], none)

/-- The message of the error thrown when neither a collection id nor a
collection name is configured (sync.js 71-73). -/
def missingConfigMsg : String := "Please provide either COLLECTION_ID or COLLECTION_NAME in .env"

/-- The message of the error thrown when no collection matches the
configured name (sync.js 87). -/
def collectionNotFoundMsg (n : String) : String := "Collection \"" ++ n ++ "\" not found."

/-- `getCollectionId` (sync.js 66-92): a truthy direct id short-circuits
with no request; a missing name throws the configuration error before
any request; otherwise the collection listing is fetched (scoped to the
workspace when one was resolved) and searched for an exact name match,
with both the no-match error and an HTTP error logged and re-thrown. -/
def getCollectionId (cfg : Config) (env : Env) (workspaceId : Option String) :
    List HttpReq × List String × Except String String :=
  if jsPresent cfg.collectionId then ([], [], .ok (cfg.collectionId.getD ""))
  else if !jsPresent cfg.collectionName then ([], [], .error missingConfigMsg)
  else
    let n := cfg.collectionName.getD ""
    let params := if jsPresent workspaceId then workspaceId else none
    match env.collections params with
    | .ok cols =>
      match cols.find? (fun c => c.name == n) with
      | some c => ([.getCollections params], [], .ok c.uid)
      | none =>
        ([.getCollections params], ["Failed to find collection: " ++ collectionNotFoundMsg n],
          .error (collectionNotFoundMsg n))
    | .error m => ([.getCollections params], ["Failed to find collection: " ++ m], .error m)

/-- `getCollectionDetails` (sync.js 95-104): fetch the full document;
an HTTP error is logged and re-thrown. -/
def getCollectionDetails (uid : String) (env : Env) :
    List HttpReq × List String × Except String Collection :=
  match env.details uid with
  | .ok c => ([.getCollectionDetails uid], [], .ok c)
  | .error m =>
    ([.getCollectionDetails uid], ["Failed to fetch collection details: " ++ m], .error m)

/-- The documentation-generation phase of `main` (sync.js 326-349):
grouping mode when an endpoint directory is configured (flattening
traversal, then the endpoint directory and one module file per
non-empty group), plain traversal otherwise. -/
def emitDocs (cfg : Config) (coll : Collection) : List FsOp :=
  match cfg.apiEndpointsDir with
  | some d =>
    let r := collectFolderRequests coll.item [cfg.outputDir] []
    r.1 ++ FsOp.mkdir [d] :: endpointFileOps r.2 d
  | none => processItems coll.item [cfg.outputDir]

/-- Every filesystem effect of a successful run, in order: the output
directory, the raw `collection.json` snapshot, then the generated
documentation (sync.js 311, 318-321, 326-349). -/
def successOps (cfg : Config) (coll : Collection) : List FsOp :=
  FsOp.mkdir [cfg.outputDir] ::
    FsOp.write [cfg.outputDir, "collection.json"] (collectionJson coll) ::
      emitDocs cfg coll

/-- The observable outcome of a run: HTTP trace, filesystem trace,
error log, and the exit status (`.error` modelling the `catch` block's
`process.exit(1)`). -/
structure RunResult where
  reqs : List HttpReq
  ops : List FsOp
  logs : List String
  exit : Except String Unit

/-- The part of `main` after workspace resolution (sync.js 311,
314-355): collection lookup, detail fetch and file emission, the
`catch` block logging `Execution failed` and exiting nonzero.  The
initial `ensureDir(CONFIG.outputDir)` is the first filesystem
operation in every branch. -/
def mainWithWs (cfg : Config) (env : Env) (workspaceId : Option String) : RunResult :=
  let c := getCollectionId cfg env workspaceId
  match c.2.2 with
  | .error e =>
    ⟨c.1, [FsOp.mkdir [cfg.outputDir]], c.2.1 ++ ["Execution failed: " ++ e], .error e⟩
  | .ok uid =>
    let d := getCollectionDetails uid env
    match d.2.2 with
    | .error e =>
      ⟨c.1 ++ d.1, [FsOp.mkdir [cfg.outputDir]],
        c.2.1 ++ d.2.1 ++ ["Execution failed: " ++ e], .error e⟩
    | .ok coll => ⟨c.1 ++ d.1, successOps cfg coll, c.2.1 ++ d.2.1, .ok ()⟩

/-- `main` (sync.js 309-356): workspace resolution followed by the
rest of the run. -/
def main (cfg : Config) (env : Env) : RunResult :=
  let w := getWorkspaceId cfg env
  let rest := mainWithWs cfg env w.2.2
  ⟨w.1 ++ rest.reqs, rest.ops, w.2.1 ++ rest.logs, rest.exit⟩

/-! ## Filesystem semantics -/

/-- Observable file contents: each path maps to the bytes of the file
there, if any.  `ensureDir` creates directories only and never changes
file contents. -/
def FsState := List String → Option String

/-- Effect of one operation on the file contents. -/
def applyOp (op : FsOp) (σ : FsState) : FsState :=
  match op with
  | .mkdir _ => σ
  | .write p c => fun q => if q = p then some c else σ q

/-- Effect of a whole run, first operation first. -/
def applyOps (ops : List FsOp) (σ : FsState) : FsState :=
  match ops with
  | [] => σ
  | op :: rest => applyOps rest (applyOp op σ)

/-- The content of the last write to `p` in `ops`, if any. -/
def lastWrite (ops : List FsOp) (p : List String) : Option String :=
  match ops with
  | [] => none
  | op :: rest =>
    match lastWrite rest p with
    | some c => some c
    | none =>
      match op with
      | .write q c => if p = q then some c else none
      | .mkdir _ => none

/-- `Locates items dirs n rq rs` holds when a request item with name
`n`, payload `rq` and responses `rs` sits under the chain of folder
names `dirs` inside `items`. -/
inductive Locates : List Item → List String → String → Request → List RespItem → Prop
  | here {items : List Item} {n : String} {rq : Request} {rs : List RespItem} :
      Item.req n rq rs ∈ items → Locates items [] n rq rs
  | deeper {items : List Item} {f : String} {cs : List Item} {p : List String} {n : String}
      {rq : Request} {rs : List RespItem} :
      Item.folder f cs ∈ items → Locates cs p n rq rs → Locates items (f :: p) n rq rs

/-! ## Concrete fixtures used by witnesses and counterexamples -/

/-- Fixture: a configuration with a workspace name and a direct
collection id. -/
def cfgWsDirect : Config := ⟨"key", some "W", none, some "cid", "out", none⟩

/-- Fixture: an environment whose workspace listing fails and whose
other calls succeed with an empty collection. -/
def envWsError : Env := ⟨.error "network down", fun _ => .ok [], fun _ => .ok ⟨[]⟩⟩

/-- Fixture: a configuration with a workspace name but neither a
collection name nor a collection id. -/
def cfgNoColl : Config := ⟨"key", some "W", none, none, "out", none⟩

/-- Fixture: an environment in which every call succeeds and the
collection listing holds a single collection named `Other`. -/
def envOther : Env := ⟨.ok [], fun _ => .ok [⟨"u1", "Other"⟩], fun _ => .ok ⟨[]⟩⟩

/-- Fixture: a configuration looking up collection `C` by name, with no
workspace. -/
def cfgByName : Config := ⟨"key", none, some "C", none, "out", none⟩

/-- Fixture: a minimal request payload. -/
def reqFixture : Request := ⟨"GET", .undef, none, [], none⟩

/-- Fixture: children of a top-level folder — a nested subfolder `Sub`
holding request `R`, and a direct child request `Q`. -/
def childrenFixture : List Item :=
  [Item.folder "Sub" [Item.req "R" reqFixture []], Item.req "Q" reqFixture []]

/-! # Theorems -/

/-! ## Filesystem helper lemmas -/

theorem applyOps_eq_lastWrite (ops : List FsOp) (σ : FsState) (p : List String) :
    applyOps ops σ p =
      (match lastWrite ops p with
       | some c => some c
       | none => σ p) := by
  induction ops generalizing σ with
  | nil => rfl
  | cons op rest ih =>
    show applyOps rest (applyOp op σ) p = _
    rw [ih]
    rcases hlw : lastWrite rest p with _ | c
    · cases op with
      | mkdir q => simp [lastWrite, hlw, applyOp]
      | write q c =>
        by_cases hpq : p = q
        · subst hpq
          simp [lastWrite, hlw, applyOp]
        · simp [lastWrite, hlw, applyOp, hpq]
    · simp [lastWrite, hlw]

theorem applyOps_idem (ops : List FsOp) (σ : FsState) :
    applyOps ops (applyOps ops σ) = applyOps ops σ := by
  funext p
  rw [applyOps_eq_lastWrite, applyOps_eq_lastWrite]
  rcases lastWrite ops p with _ | c <;> simp

/-- C3: for every fixed collection document and configuration, the
write sequence of the pipeline is a deterministic function of the two,
every write overwrites its target, and applying the run's operations a
second time leaves every file with byte-identical contents. -/
theorem successOps_idempotent (cfg : Config) (coll : Collection) (σ : FsState) :
    applyOps (successOps cfg coll) (applyOps (successOps cfg coll) σ) =
      applyOps (successOps cfg coll) σ :=
  applyOps_idem (successOps cfg coll) σ

/-! ## `extractEndpoint` -/

theorem ensureSlash_head (s : String) : (ensureSlash s).data.head? = some '/' := by
  rcases hd : s.data with _ | ⟨c, rest⟩
  · simp [ensureSlash, hd, String.data_append]
  · by_cases hc : c = '/'
    · subst hc
      simp [ensureSlash, hd]
    · have : ensureSlash s = "/" ++ s := by
        unfold ensureSlash
        rw [hd]
        cases c
        simp_all [ensureSlash]
      rw [this]
      simp [String.data_append]

/-- C4: the resolution rules of `extractEndpoint`, in the source's
order — absent input gives `/`; a plain string is used directly;
structured segments are joined with `/`; a raw URL is parsed with
fallback to the raw text — each followed by query stripping and slash
prepending, together with the spec's four concrete examples. -/
theorem extractEndpoint_rules :
    extractEndpoint .undef = "/" ∧
    (∀ s, extractEndpoint (.str s) = ensureSlash (stripQuery s)) ∧
    (∀ segs r q, extractEndpoint (.obj (some segs) r q) =
      ensureSlash (stripQuery (String.intercalate "/" segs))) ∧
    (∀ raw q, extractEndpoint (.obj none (some raw) q) =
      ensureSlash (stripQuery ((parseURL raw).getD raw))) ∧
    extractEndpoint (.str "users") = "/users" ∧
    extractEndpoint (.obj none (some "https://x.test/a/b?q=1") []) = "/a/b" ∧
    extractEndpoint (.obj (some ["a", "b"]) none []) = "/a/b" := by
  refine ⟨rfl, ?_, ?_, ?_, by decide, by decide, by decide⟩
  · intro s
    by_cases h : s = ""
    · subst h; decide
    · simp [extractEndpoint, h]
  · intro segs r q; rfl
  · intro raw q
    simp only [extractEndpoint]
    rcases parseURL raw with _ | pn <;> rfl

/-- C5: `extractEndpoint` is total over every input shape and always
returns a string whose first character is `/`; a URL that fails to
parse degrades to using the raw string (query-stripped and
slash-prefixed). -/
theorem extractEndpoint_total (u : UrlRep) :
    (extractEndpoint u).data.head? = some '/' ∧
    (∀ raw q, u = UrlRep.obj none (some raw) q → parseURL raw = none →
      extractEndpoint u = ensureSlash (stripQuery raw)) := by
  constructor
  · cases u with
    | undef => decide
    | str s =>
      by_cases h : s = ""
      · subst h; decide
      · simp only [extractEndpoint, h, if_false]
        exact ensureSlash_head _
    | obj p r q => exact ensureSlash_head _
  · rintro raw q rfl hfail
    simp [extractEndpoint, hfail]

theorem extractEndpoint_total_witness :
    (extractEndpoint (UrlRep.obj none (some "users list") [])).data.head? = some '/' ∧
    extractEndpoint (UrlRep.obj none (some "users list") []) =
      ensureSlash (stripQuery "users list") :=
  ⟨(extractEndpoint_total (UrlRep.obj none (some "users list") [])).1,
    (extractEndpoint_total (UrlRep.obj none (some "users list") [])).2 "users list" [] rfl
      (by decide)⟩

/-! ## The Body section of the Markdown renderer -/

theorem ne_empty_of_data_cons {s : String} {c : Char} {cs : List Char}
    (h : s.data = c :: cs) : s ≠ "" := by
  intro he
  rw [he] at h
  exact absurd h (by simp)

/-- C6 counterexample: a body descriptor with the unrecognized mode
`urlencoded` still contributes a Body heading to the rendered
Markdown, contradicting the claim that such a descriptor contributes
nothing. -/
theorem mdContent_body_heading_for_unrecognized_mode :
    mdContent "Ping" ⟨"POST", .undef, none, [], some ⟨"urlencoded", "", []⟩⟩ [] =
      "# Ping\n\n> No description provided.\n\n`POST` **undefined**\n\n## Body (urlencoded)\n\n" ∧
    ("urlencoded" : String) ≠ "raw" ∧ ("urlencoded" : String) ≠ "formdata" := by
  refine ⟨by decide, by decide, by decide⟩

/-- C6 (amended): the renderer emits the Body heading exactly when a
body descriptor with a truthy (non-empty) mode exists; for a truthy
mode other than `raw` and `formdata` the section consists of the bare
heading with no content. -/
theorem bodySection_heading_iff (b : Option BodyDesc) :
    (bodySection b ≠ "" ↔ ∃ bd, b = some bd ∧ bd.mode ≠ "") ∧
    (∀ bd, b = some bd → bd.mode ≠ "" → bd.mode ≠ "raw" → bd.mode ≠ "formdata" →
      bodySection b = "## Body (" ++ bd.mode ++ ")\n\n") := by
  constructor
  · cases b with
    | none =>
      simp [bodySection]
    | some bd =>
      by_cases hm : bd.mode = ""
      · simp [bodySection, hm]
      · constructor
        · intro _
          exact ⟨bd, rfl, hm⟩
        · intro _ he
          simp only [bodySection] at he
          rw [if_neg hm] at he
          have hlen := congrArg String.length he
          simp only [String.length_append] at hlen
          have h1 : ("## Body (" : String).length = 9 := by decide
          have h2 : (")\n\n" : String).length = 3 := by decide
          have h3 : ("" : String).length = 0 := rfl
          omega
  · rintro bd rfl hm hraw hform
    simp [bodySection, hm, hraw, hform]

theorem bodySection_heading_iff_witness :
    (bodySection (some ⟨"urlencoded", "", []⟩) ≠ "" ↔
      ∃ bd, (some (⟨"urlencoded", "", []⟩ : BodyDesc)) = some bd ∧ bd.mode ≠ "") ∧
    bodySection (some ⟨"urlencoded", "", []⟩) = "## Body (" ++ "urlencoded" ++ ")\n\n" :=
  ⟨(bodySection_heading_iff (some ⟨"urlencoded", "", []⟩)).1,
    (bodySection_heading_iff (some ⟨"urlencoded", "", []⟩)).2 ⟨"urlencoded", "", []⟩ rfl
      (by decide) (by decide) (by decide)⟩

/-! ## Directory naming in the two traversals -/

/-- C7 counterexample: in grouping mode the directory created for the
top-level folder `Users` is the lower-cased `users`, not the
case-preserving file-safe name `Users`; no operation of the grouping
traversal creates a `Users` directory. -/
theorem collectFolderRequests_lowercases_directory :
    (collectFolderRequests [Item.folder "Users" []] ["out"] []).1 =
      [FsOp.mkdir ["out", "users"]] ∧
    fileSafe "Users" = "Users" ∧
    FsOp.mkdir ["out", "Users"] ∉ (collectFolderRequests [Item.folder "Users" []] ["out"] []).1 := by
  have h : (collectFolderRequests [Item.folder "Users" []] ["out"] []).1 =
      [FsOp.mkdir ["out", "users"]] := by
    simp [collectFolderRequests, flattenOps, flattenReqs, processItems, mapPush, jsToLower,
      fileSafe]
    decide
  refine ⟨h, by decide, ?_⟩
  rw [h]
  decide

/-- C7 (amended): the plain traversal names a folder's directory by the
file-safe transformation with case preserved, while the grouping pass
lower-cases the top-level folder's directory name; request Markdown
filenames are the lower-cased file-safe request name in both. -/
theorem folder_directory_naming (n : String) (cs rest : List Item) (base : List String)
    (fm : FolderMap) :
    (∃ t, processItems (Item.folder n cs :: rest) base =
      FsOp.mkdir (base ++ [fileSafe n]) :: t) ∧
    (∃ t, (collectFolderRequests (Item.folder n cs :: rest) base fm).1 =
      FsOp.mkdir (base ++ [jsToLower (fileSafe n)]) :: t) ∧
    mdFileName n = jsToLower (fileSafe n) ++ ".md" := by
  refine ⟨⟨processItems cs (base ++ [fileSafe n]) ++ processItems rest base,
    by simp [processItems]⟩, ?_, rfl⟩
  rcases hx : collectFolderRequests rest base (mapPush fm (jsToLower (fileSafe n)) (flattenReqs cs))
    with ⟨tailOps, fm2⟩
  exact ⟨flattenOps cs (base ++ [jsToLower (fileSafe n)]) ++
      processItems cs (base ++ [jsToLower (fileSafe n)]) ++ tailOps,
    by simp [collectFolderRequests, hx]⟩

/-! ## Character-case helper lemmas -/

theorem toNat_ofNat_valid {m : Nat} (h : m < 55296) : (Char.ofNat m).toNat = m := by
  unfold Char.ofNat
  rw [dif_pos (Or.inl h)]
  unfold Char.ofNatAux Char.toNat
  show (UInt32.ofNat' m _).toNat = m
  simp [UInt32.ofNat', UInt32.toNat]

theorem jsSpace_eq_false_of_ge {d : Char} (h : 33 ≤ d.toNat) : jsSpace d = false := by
  simp only [jsSpace, Bool.or_eq_false_iff]
  refine ⟨⟨⟨⟨⟨?_, ?_⟩, ?_⟩, ?_⟩, ?_⟩, ?_⟩ <;>
    · simp only [decide_eq_false_iff_not]
      intro he
      subst he
      exact absurd h (by decide)

theorem alnum_toNat_ge {c : Char} (h : jsAlnum c = true) : 33 ≤ c.toNat := by
  simp only [jsAlnum, Bool.or_eq_true, Char.isAlpha, Char.isUpper, Char.isLower,
    Char.isDigit, Bool.and_eq_true, decide_eq_true_eq] at h
  rcases h with (⟨h1, _⟩ | ⟨h1, _⟩) | ⟨h1, _⟩
  · exact le_trans (by decide) h1
  · exact le_trans (by decide) h1
  · exact le_trans (by decide) h1

theorem alnum_not_space {c : Char} (h : jsAlnum c = true) : jsSpace c = false :=
  jsSpace_eq_false_of_ge (alnum_toNat_ge h)

theorem toUpper_toNat_ge {c : Char} (h : jsAlnum c = true) : 33 ≤ c.toUpper.toNat := by
  unfold Char.toUpper
  show 33 ≤ (if c.toNat ≥ 97 ∧ c.toNat ≤ 122 then Char.ofNat (c.toNat - 32) else c).toNat
  split
  · next hc =>
    rw [toNat_ofNat_valid (by omega)]
    omega
  · exact alnum_toNat_ge h

theorem toLower_toNat_ge {c : Char} (h : jsAlnum c = true) : 33 ≤ c.toLower.toNat := by
  unfold Char.toLower
  show 33 ≤ (if c.toNat ≥ 65 ∧ c.toNat ≤ 90 then Char.ofNat (c.toNat + 32) else c).toNat
  split
  · next hc =>
    rw [toNat_ofNat_valid (by omega)]
    omega
  · exact alnum_toNat_ge h

theorem toUpper_not_space {c : Char} (h : jsAlnum c = true) : jsSpace c.toUpper = false :=
  jsSpace_eq_false_of_ge (toUpper_toNat_ge h)

theorem toLower_not_space {c : Char} (h : jsAlnum c = true) : jsSpace c.toLower = false :=
  jsSpace_eq_false_of_ge (toLower_toNat_ge h)

theorem toUpper_eq_self_of_isUpper {c : Char} (h : c.isUpper = true) : c.toUpper = c := by
  simp [Char.isUpper] at h
  unfold Char.toUpper
  rw [if_neg]
  intro hc
  have h2 : c.toNat ≤ 90 := h.2
  have h1 : 97 ≤ c.toNat := hc.1
  omega

theorem toLower_eq_self_of_not_isUpper {c : Char} (h : c.isUpper = false) : c.toLower = c := by
  simp [Char.isUpper] at h
  unfold Char.toLower
  rw [if_neg]
  intro hc
  have h1 : (65 : UInt32) ≤ c.val := hc.1
  have h2 := h h1
  have h3 : c.toNat ≤ 90 := hc.2
  have h4 : (90 : UInt32) < c.val := h2
  exact absurd h3 (by exact Nat.not_le.mpr h4)

/-! ## The camel-case scan versus the word-based reference -/

theorem splitWs_eq_nil_of_all_space {t : List Char} (h : ∀ x ∈ t, x = ' ') :
    splitWs t = [] := by
  induction t with
  | nil => simp [splitWs]
  | cons c rest ih =>
    have hc : c = ' ' := h c (List.mem_cons_self _ _)
    subst hc
    rw [splitWs]
    rw [if_pos (by decide)]
    exact ih (fun x hx => h x (List.mem_cons_of_mem _ hx))

theorem camelGo_of_all_space {t : List Char} (h : ∀ x ∈ t, x = ' ') (prev : Char) :
    camelGo prev t = t := by
  induction t generalizing prev with
  | nil => rfl
  | cons c rest ih =>
    have hc : c = ' ' := h c (List.mem_cons_self _ _)
    subst hc
    have h0 : jsWordChar ' ' = false := by decide
    have h1 : (' ').isUpper = false := by decide
    rw [camelGo]
    rw [if_neg (by simp [h0, h1])]
    rw [ih (fun x hx => h x (List.mem_cons_of_mem _ hx))]

theorem filter_all_space {t : List Char} (h : ∀ x ∈ t, x = ' ') :
    t.filter (fun c => !jsSpace c) = [] := by
  induction t with
  | nil => rfl
  | cons c rest ih =>
    have hc : c = ' ' := h c (List.mem_cons_self _ _)
    subst hc
    rw [List.filter_cons_of_neg (by decide)]
    exact ih (fun x hx => h x (List.mem_cons_of_mem _ hx))

theorem camelGo_words (t : List Char) (prev : Char)
    (hchars : ∀ c ∈ t, jsAlnum c = true ∨ c = ' ') :
    (jsWordChar prev = false →
      (camelGo prev t).filter (fun c => !jsSpace c) =
        ((splitWs t).map capFirst).flatten) ∧
    (jsWordChar prev = true →
      (camelGo prev t).filter (fun c => !jsSpace c) =
        t.takeWhile (fun d => !jsSpace d) ++
          ((splitWs (t.dropWhile (fun d => !jsSpace d))).map capFirst).flatten) := by
  induction t generalizing prev with
  | nil => exact ⟨fun _ => by simp [camelGo, splitWs], fun _ => by simp [camelGo, splitWs]⟩
  | cons c rest ih =>
    have hrest : ∀ x ∈ rest, jsAlnum x = true ∨ x = ' ' :=
      fun x hx => hchars x (List.mem_cons_of_mem _ hx)
    rcases hchars c (List.mem_cons_self _ _) with halnum | hsp
    · have hw : jsWordChar c = true := by simp [jsWordChar, halnum]
      have hns : jsSpace c = false := alnum_not_space halnum
      constructor
      · intro hprev
        have hcond : ((jsWordChar c && !jsWordChar prev) || c.isUpper) = true := by
          simp [hw, hprev]
        rw [camelGo, if_pos hcond]
        rw [List.filter_cons_of_pos (by simp [toUpper_not_space halnum])]
        rw [(ih c hrest).2 hw]
        have hsplit : splitWs (c :: rest) =
            (c :: rest.takeWhile (fun d => !jsSpace d)) ::
              splitWs (rest.dropWhile (fun d => !jsSpace d)) := by
          rw [splitWs.eq_def]
          simp [hns]
        rw [hsplit]
        simp [capFirst]
      · intro hprev
        have hhead : (if ((jsWordChar c && !jsWordChar prev) || c.isUpper) = true
            then c.toUpper else c) = c := by
          rcases hu : c.isUpper
          · simp [hprev, hu]
          · simp [hprev, hu, toUpper_eq_self_of_isUpper hu]
        rw [camelGo, hhead]
        rw [List.filter_cons_of_pos (by simp [hns])]
        rw [(ih c hrest).2 hw]
        rw [List.takeWhile_cons, List.dropWhile_cons]
        simp [hns]
    · subst hsp
      have h0 : jsWordChar ' ' = false := by decide
      have h1 : (' ').isUpper = false := by decide
      have hsps : jsSpace ' ' = true := by decide
      have hstep : (camelGo prev (' ' :: rest)).filter (fun c => !jsSpace c) =
          (camelGo ' ' rest).filter (fun c => !jsSpace c) := by
        rw [camelGo, if_neg (by simp [h0, h1])]
        rw [List.filter_cons_of_neg (by simp [hsps])]
      have hsplitsp : splitWs (' ' :: rest) = splitWs rest := by
        rw [splitWs.eq_def]
        simp [hsps]
      constructor
      · intro _
        rw [hstep, (ih ' ' hrest).1 h0]
        rw [hsplitsp]
      · intro _
        rw [hstep, (ih ' ' hrest).1 h0]
        simp [List.takeWhile_cons, List.dropWhile_cons, hsps, hsplitsp]

/-- C8 counterexample: on the input `getAllUsers` — one
whitespace-delimited word with interior capitals — the implementation
keeps the interior capitals while the reference definition lower-cases
the whole first word, so the two disagree. -/
theorem toCamelCase_ne_reference :
    toCamelCase "getAllUsers" = "getAllUsers" ∧
    toCamelCaseSpec "getAllUsers" = "getallusers" ∧
    ("getAllUsers" : String) ≠ "getallusers" := by
  refine ⟨by decide, ?_, by decide⟩
  simp +decide [toCamelCaseSpec, splitWs]

/-- C8 (amended): `toCamelCase` agrees with the reference definition on
every input whose sanitized text is empty, all spaces, or starts with
an alphanumeric character whose first word has no uppercase letter
after position 0 — in particular on the spec's example
`"Get All Users"`.  Outside this class the offset-based regex pass
diverges from the reference (the first word is not fully
lower-cased). -/
theorem toCamelCase_eq_reference_of_tame (s : String) (h : camelTame s = true) :
    toCamelCase s = toCamelCaseSpec s := by
  unfold toCamelCase toCamelCaseSpec
  unfold camelTame at h
  have hchars : ∀ c ∈ s.data.map (fun c => if jsAlnum c then c else ' '),
      jsAlnum c = true ∨ c = ' ' := by
    intro c hc
    rcases List.mem_map.mp hc with ⟨a, _, rfl⟩
    by_cases ha : jsAlnum a = true
    · left; simp [ha]
    · right; simp [ha]
  rcases htt : s.data.map (fun c => if jsAlnum c then c else ' ') with _ | ⟨c, rest⟩
  · simp [camelAll, splitWs]
  · rw [htt] at h hchars
    have hrest : ∀ x ∈ rest, jsAlnum x = true ∨ x = ' ' :=
      fun x hx => hchars x (List.mem_cons_of_mem _ hx)
    simp only at h
    by_cases hcsp : c = ' '
    · subst hcsp
      rw [if_pos rfl] at h
      have hall : ∀ x ∈ (' ' :: rest), x = ' ' := by
        intro x hx
        have := List.all_eq_true.mp h x hx
        simpa using this
      rw [camelAll]
      rw [if_neg (by decide)]
      rw [List.filter_cons_of_neg (by decide)]
      rw [camelGo_of_all_space (fun x hx => hall x (List.mem_cons_of_mem _ hx)) ' ']
      rw [filter_all_space (fun x hx => hall x (List.mem_cons_of_mem _ hx))]
      rw [splitWs_eq_nil_of_all_space hall]
    · rw [if_neg hcsp] at h
      have halnum : jsAlnum c = true := by
        rcases hchars c (List.mem_cons_self _ _) with ha | ha
        · exact ha
        · exact absurd ha hcsp
      have hw : jsWordChar c = true := by simp [jsWordChar, halnum]
      have hns : jsSpace c = false := alnum_not_space halnum
      rw [camelAll, if_pos hw]
      rw [List.filter_cons_of_pos (by simp [toLower_not_space halnum])]
      rw [(camelGo_words rest c hrest).2 hw]
      have hsplit : splitWs (c :: rest) =
          (c :: rest.takeWhile (fun d => !jsSpace d)) ::
            splitWs (rest.dropWhile (fun d => !jsSpace d)) := by
        rw [splitWs.eq_def]
        simp [hns]
      rw [hsplit]
      have htw : (rest.takeWhile (fun d => !jsSpace d)).map Char.toLower =
          rest.takeWhile (fun d => !jsSpace d) := by
        have hnu : ∀ d ∈ rest.takeWhile (fun d => !jsSpace d), d.isUpper = false := by
          intro d hd
          have := List.all_eq_true.mp h d hd
          simpa using this
        calc (rest.takeWhile (fun d => !jsSpace d)).map Char.toLower
            = (rest.takeWhile (fun d => !jsSpace d)).map id := by
              apply List.map_congr_left
              intro d hd
              exact toLower_eq_self_of_not_isUpper (hnu d hd)
          _ = rest.takeWhile (fun d => !jsSpace d) := List.map_id _
      simp [htw]

theorem toCamelCase_eq_reference_witness :
    camelTame "Get All Users" = true ∧
    toCamelCase "Get All Users" = toCamelCaseSpec "Get All Users" ∧
    toCamelCase "Get All Users" = "getAllUsers" :=
  ⟨by decide, toCamelCase_eq_reference_of_tame "Get All Users" (by decide), by decide⟩

/-! ## Error handling of the remote-collection client -/

/-- C1 counterexample: with a workspace name configured and the
workspace-listing GET failing, the run still completes successfully —
the HTTP error is logged and swallowed rather than re-raised, so it
does not terminate the run, which continues on to collection
resolution and detail fetch. -/
theorem workspaceListingFailure_run_succeeds :
    (main cfgWsDirect envWsError).exit = .ok () ∧
    cfgWsDirect.workspaceName = some "W" ∧
    envWsError.workspaces = .error "network down" ∧
    (main cfgWsDirect envWsError).reqs = [.getWorkspaces, .getCollectionDetails "cid"] ∧
    (main cfgWsDirect envWsError).logs = ["Failed to fetch workspaces: network down"] :=
  ⟨rfl, rfl, rfl, rfl, rfl⟩

/-- C1 (amended): when a workspace name is configured and the workspace
listing fails, the error is logged and swallowed — `getWorkspaceId`
returns no workspace id and the run proceeds to collection resolution
exactly as if workspace resolution had produced nothing. -/
theorem workspaceListingFailure_logged_and_swallowed (cfg : Config) (env : Env) (m : String)
    (hw : jsPresent cfg.workspaceName = true) (he : env.workspaces = .error m) :
    getWorkspaceId cfg env =
      ([.getWorkspaces], ["Failed to fetch workspaces: " ++ m], none) ∧
    main cfg env =
      ⟨.getWorkspaces :: (mainWithWs cfg env none).reqs, (mainWithWs cfg env none).ops,
        ("Failed to fetch workspaces: " ++ m) :: (mainWithWs cfg env none).logs,
        (mainWithWs cfg env none).exit⟩ := by
  have h1 : getWorkspaceId cfg env =
      ([.getWorkspaces], ["Failed to fetch workspaces: " ++ m], none) := by
    simp [getWorkspaceId, hw, he]
  exact ⟨h1, by simp [main, h1]⟩

theorem workspaceListingFailure_logged_and_swallowed_witness :
    getWorkspaceId cfgWsDirect envWsError =
      ([.getWorkspaces], ["Failed to fetch workspaces: " ++ "network down"], none) ∧
    main cfgWsDirect envWsError =
      ⟨.getWorkspaces :: (mainWithWs cfgWsDirect envWsError none).reqs,
        (mainWithWs cfgWsDirect envWsError none).ops,
        ("Failed to fetch workspaces: " ++ "network down") ::
          (mainWithWs cfgWsDirect envWsError none).logs,
        (mainWithWs cfgWsDirect envWsError none).exit⟩ :=
  workspaceListingFailure_logged_and_swallowed cfgWsDirect envWsError "network down"
    (by decide) rfl

/-- C2 counterexample: with both collection identifiers absent but a
workspace name configured, the run does issue an HTTP request — the
workspace listing — before terminating with the configuration error,
contradicting the claim that no request of any kind is issued first. -/
theorem missingCollectionConfig_requests_workspaces_first :
    (main cfgNoColl envOther).reqs = [.getWorkspaces] ∧
    cfgNoColl.collectionName = none ∧ cfgNoColl.collectionId = none ∧
    cfgNoColl.workspaceName = some "W" ∧
    (main cfgNoColl envOther).exit = .error missingConfigMsg :=
  ⟨rfl, rfl, rfl, rfl, rfl⟩

/-- C2 (amended): with both collection identifiers absent the run
terminates with the configuration error, performs no file write and
issues no collection-listing or detail request; the only possible
prior request is the workspace listing, and with no workspace name
configured no request at all is issued. -/
theorem missingCollectionConfig_terminates_without_writes (cfg : Config) (env : Env)
    (hn : jsPresent cfg.collectionName = false) (hi : jsPresent cfg.collectionId = false) :
    (main cfg env).exit = .error missingConfigMsg ∧
    (main cfg env).ops = [FsOp.mkdir [cfg.outputDir]] ∧
    (∀ w, HttpReq.getCollections w ∉ (main cfg env).reqs) ∧
    (∀ uid, HttpReq.getCollectionDetails uid ∉ (main cfg env).reqs) ∧
    (jsPresent cfg.workspaceName = false → (main cfg env).reqs = []) := by
  have hc : ∀ ws, getCollectionId cfg env ws = ([], [], .error missingConfigMsg) := by
    intro ws
    simp [getCollectionId, hn, hi]
  have hrest : ∀ ws, mainWithWs cfg env ws =
      ⟨[], [FsOp.mkdir [cfg.outputDir]], ["Execution failed: " ++ missingConfigMsg],
        .error missingConfigMsg⟩ := by
    intro ws
    simp [mainWithWs, hc]
  have hw1 : (getWorkspaceId cfg env).1 = [] ∨ (getWorkspaceId cfg env).1 = [.getWorkspaces] := by
    unfold getWorkspaceId
    by_cases hwp : jsPresent cfg.workspaceName = true
    · cases henv : env.workspaces with
      | ok ws =>
        cases hf : ws.find? (fun w => w.name == cfg.workspaceName.getD "") <;>
          simp [hwp, henv, hf]
      | error m => simp [hwp, henv]
    · simp [hwp]
  have hreqs : (main cfg env).reqs = (getWorkspaceId cfg env).1 := by
    simp [main, hrest]
  refine ⟨by simp [main, hrest], by simp [main, hrest], ?_, ?_, ?_⟩
  · intro w
    rw [hreqs]
    rcases hw1 with h | h <;> simp [h]
  · intro uid
    rw [hreqs]
    rcases hw1 with h | h <;> simp [h]
  · intro hwn
    rw [hreqs]
    simp [getWorkspaceId, hwn]

theorem missingCollectionConfig_terminates_witness :
    (main cfgNoColl envOther).exit = .error missingConfigMsg ∧
    (main cfgNoColl envOther).ops = [FsOp.mkdir [cfgNoColl.outputDir]] ∧
    (∀ w, HttpReq.getCollections w ∉ (main cfgNoColl envOther).reqs) ∧
    (∀ uid, HttpReq.getCollectionDetails uid ∉ (main cfgNoColl envOther).reqs) ∧
    (jsPresent cfgNoColl.workspaceName = false → (main cfgNoColl envOther).reqs = []) :=
  missingCollectionConfig_terminates_without_writes cfgNoColl envOther rfl rfl

/-- C9: with no direct id configured and no fetched collection whose
name equals the configured collection name, the run fails with the
descriptive collection-not-found error and performs no file write —
the only filesystem effect is the initial output-directory creation. -/
theorem collectionNotFound_fails_without_writes (cfg : Config) (env : Env)
    (cols : List CollectionRef)
    (hi : jsPresent cfg.collectionId = false)
    (hn : jsPresent cfg.collectionName = true)
    (hc : ∀ w, env.collections w = .ok cols)
    (hm : ∀ c ∈ cols, c.name ≠ cfg.collectionName.getD "") :
    (main cfg env).exit = .error (collectionNotFoundMsg (cfg.collectionName.getD "")) ∧
    (main cfg env).ops = [FsOp.mkdir [cfg.outputDir]] ∧
    (∀ p s, FsOp.write p s ∉ (main cfg env).ops) := by
  have hfind : cols.find? (fun c => c.name == cfg.collectionName.getD "") = none := by
    rw [List.find?_eq_none]
    intro c hcm
    simp [hm c hcm]
  have hcid : ∀ ws, getCollectionId cfg env ws =
      ([.getCollections (if jsPresent ws then ws else none)],
       ["Failed to find collection: " ++ collectionNotFoundMsg (cfg.collectionName.getD "")],
       .error (collectionNotFoundMsg (cfg.collectionName.getD ""))) := by
    intro ws
    simp [getCollectionId, hi, hn, hc, hfind]
  have hrest : ∀ ws, mainWithWs cfg env ws =
      ⟨[.getCollections (if jsPresent ws then ws else none)], [FsOp.mkdir [cfg.outputDir]],
        ("Failed to find collection: " ++ collectionNotFoundMsg (cfg.collectionName.getD "")) ::
          ["Execution failed: " ++ collectionNotFoundMsg (cfg.collectionName.getD "")],
        .error (collectionNotFoundMsg (cfg.collectionName.getD ""))⟩ := by
    intro ws
    simp [mainWithWs, hcid]
  refine ⟨by simp [main, hrest], by simp [main, hrest], ?_⟩
  intro p s
  have hops : (main cfg env).ops = [FsOp.mkdir [cfg.outputDir]] := by simp [main, hrest]
  rw [hops]
  simp

theorem collectionNotFound_fails_witness :
    (main cfgByName envOther).exit = .error (collectionNotFoundMsg "C") ∧
    (main cfgByName envOther).ops = [FsOp.mkdir ["out"]] ∧
    (∀ p s, FsOp.write p s ∉ (main cfgByName envOther).ops) :=
  collectionNotFound_fails_without_writes cfgByName envOther [⟨"u1", "Other"⟩] rfl (by decide)
    (fun _ => rfl) (by decide)

/-! ## Double writes of the grouping traversal -/

theorem flattenOps_mem_of_req {items : List Item} {n : String} {rq : Request}
    {rs : List RespItem} (h : Item.req n rq rs ∈ items) (dir : List String) :
    FsOp.write (dir ++ [mdFileName n]) (mdContent n rq rs) ∈ flattenOps items dir := by
  induction items with
  | nil => cases h
  | cons it rest ih =>
    rcases List.mem_cons.mp h with heq | hmem
    · subst heq
      simp [flattenOps]
    · cases it with
      | folder f cs =>
        simp only [flattenOps, List.mem_append]
        right
        exact ih hmem
      | req n2 rq2 rs2 =>
        simp only [flattenOps, List.mem_cons]
        right
        exact ih hmem
      | other nm =>
        simp only [flattenOps]
        exact ih hmem

theorem flattenOps_mem_of_folder {items : List Item} {f : String} {cs : List Item}
    (h : Item.folder f cs ∈ items) (dir : List String) {op : FsOp}
    (hop : op ∈ flattenOps cs dir) : op ∈ flattenOps items dir := by
  induction items with
  | nil => cases h
  | cons it rest ih =>
    rcases List.mem_cons.mp h with heq | hmem
    · subst heq
      simp only [flattenOps, List.mem_append]
      left
      exact hop
    · cases it with
      | folder f2 cs2 =>
        simp only [flattenOps, List.mem_append]
        right
        exact ih hmem
      | req n2 rq2 rs2 =>
        simp only [flattenOps, List.mem_cons]
        right
        exact ih hmem
      | other nm =>
        simp only [flattenOps]
        exact ih hmem

theorem flattenOps_locates {items : List Item} {p : List String} {n : String} {rq : Request}
    {rs : List RespItem} (h : Locates items p n rq rs) (dir : List String) :
    FsOp.write (dir ++ [mdFileName n]) (mdContent n rq rs) ∈ flattenOps items dir := by
  induction h with
  | here hmem => exact flattenOps_mem_of_req hmem dir
  | deeper hmem hloc ih => exact flattenOps_mem_of_folder hmem dir ih

theorem processItems_mem_of_req {items : List Item} {n : String} {rq : Request}
    {rs : List RespItem} (h : Item.req n rq rs ∈ items) (base : List String) :
    FsOp.write (base ++ [mdFileName n]) (mdContent n rq rs) ∈ processItems items base := by
  induction items with
  | nil => cases h
  | cons it rest ih =>
    rcases List.mem_cons.mp h with heq | hmem
    · subst heq
      simp [processItems, generateMarkdown]
    · cases it with
      | folder f cs =>
        simp only [processItems, List.cons_append, List.mem_cons, List.mem_append]
        right
        right
        exact ih hmem
      | req n2 rq2 rs2 =>
        simp only [processItems, generateMarkdown, List.mem_cons, List.singleton_append]
        right
        exact ih hmem
      | other nm =>
        simp only [processItems, generateMarkdown, List.nil_append]
        exact ih hmem

theorem processItems_mem_of_folder {items : List Item} {f : String} {cs : List Item}
    (h : Item.folder f cs ∈ items) (base : List String) {op : FsOp}
    (hop : op ∈ processItems cs (base ++ [fileSafe f])) : op ∈ processItems items base := by
  induction items with
  | nil => cases h
  | cons it rest ih =>
    rcases List.mem_cons.mp h with heq | hmem
    · subst heq
      simp only [processItems, List.cons_append, List.mem_cons, List.mem_append]
      right
      left
      exact hop
    · cases it with
      | folder f2 cs2 =>
        simp only [processItems, List.cons_append, List.mem_cons, List.mem_append]
        right
        right
        exact ih hmem
      | req n2 rq2 rs2 =>
        simp only [processItems, generateMarkdown, List.mem_cons, List.singleton_append]
        right
        exact ih hmem
      | other nm =>
        simp only [processItems, generateMarkdown, List.nil_append]
        exact ih hmem

theorem processItems_locates {items : List Item} {p : List String} {n : String} {rq : Request}
    {rs : List RespItem} (h : Locates items p n rq rs) (base : List String) :
    FsOp.write ((base ++ p.map fileSafe) ++ [mdFileName n]) (mdContent n rq rs) ∈
      processItems items base := by
  induction h generalizing base with
  | @here items2 n2 rq2 rs2 hmem =>
    simpa using processItems_mem_of_req hmem base
  | @deeper items2 f2 cs2 p2 n2 rq2 rs2 hmem hloc ih =>
    have h1 := ih (base ++ [fileSafe f2])
    exact processItems_mem_of_folder hmem base (by simpa [List.append_assoc] using h1)

/-- C10: in grouping mode, a request under folder-name chain `p` inside
a top-level folder is written by the flattening pass directly into the
top-level folder's lower-cased directory, and by the subsequent plain
traversal into its true nested (case-preserving) location; for a
nested request (`p ≠ []`) the two paths are distinct, and for a direct
child (`p = []`) the identical write occurs at least twice. -/
theorem grouping_mode_writes_each_request_twice (base : List String) (fm : FolderMap)
    (name : String) (children rest : List Item) (p : List String) (n : String) (rq : Request)
    (rs : List RespItem) (hloc : Locates children p n rq rs) :
    (FsOp.write ((base ++ [jsToLower (fileSafe name)]) ++ [mdFileName n]) (mdContent n rq rs) ∈
      (collectFolderRequests (Item.folder name children :: rest) base fm).1) ∧
    (FsOp.write (((base ++ [jsToLower (fileSafe name)]) ++ p.map fileSafe) ++ [mdFileName n])
        (mdContent n rq rs) ∈
      (collectFolderRequests (Item.folder name children :: rest) base fm).1) ∧
    (p ≠ [] →
      ((base ++ [jsToLower (fileSafe name)]) ++ [mdFileName n] : List String) ≠
        ((base ++ [jsToLower (fileSafe name)]) ++ p.map fileSafe) ++ [mdFileName n]) ∧
    (p = [] →
      2 ≤ ((collectFolderRequests (Item.folder name children :: rest) base fm).1.count
        (FsOp.write ((base ++ [jsToLower (fileSafe name)]) ++ [mdFileName n])
          (mdContent n rq rs)))) := by
  rcases hx : collectFolderRequests rest base
      (mapPush fm (jsToLower (fileSafe name)) (flattenReqs children)) with ⟨tailOps, fm2⟩
  have hops : (collectFolderRequests (Item.folder name children :: rest) base fm).1 =
      FsOp.mkdir (base ++ [jsToLower (fileSafe name)]) ::
        (flattenOps children (base ++ [jsToLower (fileSafe name)]) ++
          processItems children (base ++ [jsToLower (fileSafe name)]) ++ tailOps) := by
    simp [collectFolderRequests, hx]
  have hflat := flattenOps_locates hloc (base ++ [jsToLower (fileSafe name)])
  have hproc := processItems_locates hloc (base ++ [jsToLower (fileSafe name)])
  refine ⟨?_, ?_, ?_, ?_⟩
  · rw [hops]
    simp only [List.mem_cons, List.mem_append]
    right
    left
    left
    exact hflat
  · rw [hops]
    simp only [List.mem_cons, List.mem_append]
    right
    left
    right
    exact hproc
  · intro hp heq
    have hlen := congrArg List.length heq
    simp only [List.length_append, List.length_map, List.length_cons] at hlen
    have : p.length ≠ 0 := fun h0 => hp (List.length_eq_zero.mp h0)
    omega
  · intro hp
    subst hp
    rw [hops]
    rw [List.count_cons]
    rw [List.count_append, List.count_append]
    have h1 : 1 ≤ (flattenOps children (base ++ [jsToLower (fileSafe name)])).count
        (FsOp.write ((base ++ [jsToLower (fileSafe name)]) ++ [mdFileName n])
          (mdContent n rq rs)) :=
      List.one_le_count_iff.mpr hflat
    have h2 : 1 ≤ (processItems children (base ++ [jsToLower (fileSafe name)])).count
        (FsOp.write ((base ++ [jsToLower (fileSafe name)]) ++ [mdFileName n])
          (mdContent n rq rs)) :=
      List.one_le_count_iff.mpr (by simpa using hproc)
    omega

theorem grouping_mode_writes_each_request_twice_witness :
    (FsOp.write ((["out"] ++ [jsToLower (fileSafe "Top")]) ++ [mdFileName "R"])
        (mdContent "R" reqFixture []) ∈
      (collectFolderRequests [Item.folder "Top" childrenFixture] ["out"] []).1) ∧
    (FsOp.write (((["out"] ++ [jsToLower (fileSafe "Top")]) ++ (["Sub"].map fileSafe)) ++
          [mdFileName "R"]) (mdContent "R" reqFixture []) ∈
      (collectFolderRequests [Item.folder "Top" childrenFixture] ["out"] []).1) ∧
    (((["out"] ++ [jsToLower (fileSafe "Top")]) ++ [mdFileName "R"] : List String) ≠
      ((["out"] ++ [jsToLower (fileSafe "Top")]) ++ (["Sub"].map fileSafe)) ++ [mdFileName "R"]) ∧
    (2 ≤ ((collectFolderRequests [Item.folder "Top" childrenFixture] ["out"] []).1.count
      (FsOp.write ((["out"] ++ [jsToLower (fileSafe "Top")]) ++ [mdFileName "Q"])
        (mdContent "Q" reqFixture [])))) := by
  have h1 := grouping_mode_writes_each_request_twice ["out"] [] "Top" childrenFixture []
    ["Sub"] "R" reqFixture []
    (Locates.deeper (List.mem_cons_self _ _) (Locates.here (List.mem_cons_self _ _)))
  have h2 := grouping_mode_writes_each_request_twice ["out"] [] "Top" childrenFixture []
    [] "Q" reqFixture []
    (Locates.here (List.mem_cons_of_mem _ (List.mem_cons_self _ _)))
  exact ⟨h1.1, h1.2.1, h1.2.2.1 (by decide), h2.2.2.2 rfl⟩

end PostmanSync
